import Mathlib

/-!
Shallow embedding of `src/backend/src/main.rs` (hn_tracker backend).

Modelling conventions:
* `DateTime<Utc>` timestamps are `Int` seconds since the Unix epoch;
  `chrono`'s truncate-to-hour is `hourFloor`.
* `f64` arithmetic on average scores is embedded in `Rat` (exact rationals);
  the division-guard structure of the code is preserved verbatim.
* Rust `HashMap` contents are represented canonically as association lists in
  first-insertion order; where a claim depends on the (unspecified) iteration
  order of a `HashMap`, the iteration order is an explicit parameter
  constrained to be a permutation of the canonical contents.
* Rust's stable `sort_by` with comparator `|a, b| b.key.cmp(&a.key)` is
  embedded as `sortDescBy`, a left-fold insertion sort that places each
  element after all already-placed elements with a greater-or-equal key —
  exactly the (unique) stable descending sort.
* Fallible externals (HTTP fetches, Kafka client creation/subscription,
  message receipt) are injected as `Except`/event-list parameters.
* Rust `panic!`/`.expect` is the `.panicked` constructor of `PanicOr`; a
  panic on the main thread kills the process, a panic inside a spawned
  task (an axum handler) kills only that task.
-/

/-- Story item as deserialized from the feed (struct `Story`). -/
structure Story where
  id : Nat
  title : String
  score : Option Int
  time : Int
  kids : List Nat
  url : Option String
  type : Option String
  author : Option String   -- source field `by` (`by` is a Lean keyword)
  text : Option String
  descendants : Option Int
deriving Repr, DecidableEq

/-- Compact story summary stored inside a window (struct `StoryInfo`). -/
structure StoryInfo where
  title : String
  url : Option String
  author : String
  score : Int
  comments : Int
  domain : Option String
deriving Repr, DecidableEq

/-- One hour-aligned window of aggregates (struct `HourlyData`). -/
structure HourlyData where
  hour : Int
  stories : List StoryInfo
  avg_score : Rat
  total_comments : Int
  top_authors : List (String × Int)
  domains : List (String × Int)
deriving Repr, DecidableEq

/-- The retained history (struct `HistoricalData`). -/
structure HistoricalData where
  hours : List HourlyData
  last_update : Option Int
deriving Repr, DecidableEq

/-- `HourlyResponse` returned by `process_time_range`. -/
structure HourlyResponse where
  hourly_data : List HourlyData
  timestamp : Int
deriving Repr, DecidableEq

/-- Truncation of a timestamp to the start of its UTC hour
(`date().and_hms_opt(hour(), 0, 0)` in the source). -/
def hourFloor (t : Int) : Int := t - t % 3600

/-- `extract_domain`, step 1: the remainder of the string after the first
occurrence of `"//"` (`url.split_once("//")`), as a char list. -/
def afterDoubleSlash : List Char → Option (List Char)
  | '/' :: '/' :: rest => some rest
  | _ :: rest => afterDoubleSlash rest
  | [] => none

/-- `extract_domain`, step 2: the chunk before the first `'/'`
(`rest.split('/').next()`, which is always `Some`). -/
def takeUntilSlash (l : List Char) : List Char := l.takeWhile (fun c => c ≠ '/')

/-- `extract_domain`, step 3: `trim_start_matches("www.")` — repeatedly strip
a literal, case-sensitive leading `www.`. -/
def trimWww : List Char → List Char
  | 'w' :: 'w' :: 'w' :: '.' :: rest => trimWww rest
  | l => l

/-- `extract_domain` from the source: substring after the first `//`, up to
the first `/`, with leading `www.` repetitions removed. -/
def extract_domain (url : String) : Option String :=
  (afterDoubleSlash url.data).map (fun rest => String.mk (trimWww (takeUntilSlash rest)))

section StableSort

variable {α : Type} (key : α → Int)

/-- Insert `x` into a descending-by-`key` sorted list, after every element
whose key is ≥ `key x` (matches Rust's stable `sort_by` tie behaviour). -/
def insertDescBy (x : α) : List α → List α
  | [] => [x]
  | y :: ys => if key y < key x then x :: y :: ys else y :: insertDescBy x ys

/-- Stable descending sort by `key`: the embedding of
`v.sort_by(|a, b| b.key.cmp(&a.key))`. -/
def sortDescBy (l : List α) : List α :=
  l.foldl (fun acc x => insertDescBy key x acc) []

theorem insertDescBy_perm (x : α) (l : List α) :
    (insertDescBy key x l).Perm (x :: l) := by
  induction l with
  | nil => exact List.Perm.refl _
  | cons y ys ih =>
    simp only [insertDescBy]
    by_cases h : key y < key x
    · simp [h]
    · simp only [h, if_false]
      exact (List.Perm.cons y ih).trans (List.Perm.swap x y ys)

theorem sortDescBy_aux_perm (l acc : List α) :
    (l.foldl (fun acc x => insertDescBy key x acc) acc).Perm (l ++ acc) := by
  induction l generalizing acc with
  | nil => simp
  | cons x xs ih =>
    simp only [List.foldl_cons, List.cons_append]
    exact ((ih (insertDescBy key x acc)).trans
      ((List.Perm.append_left xs (insertDescBy_perm key x acc)).trans
        List.perm_middle))

/-- `sortDescBy` is a permutation of its input. -/
theorem sortDescBy_perm (l : List α) : (sortDescBy key l).Perm l := by
  have h := sortDescBy_aux_perm key l []
  simpa [sortDescBy] using h

theorem mem_insertDescBy {x z : α} {l : List α} :
    z ∈ insertDescBy key x l ↔ z = x ∨ z ∈ l := by
  constructor
  · intro h
    have := (insertDescBy_perm key x l).mem_iff.mp h
    simpa using this
  · intro h
    apply (insertDescBy_perm key x l).mem_iff.mpr
    simpa using h

theorem sorted_insertDescBy (x : α) (l : List α)
    (h : l.Sorted (fun a b => key b ≤ key a)) :
    (insertDescBy key x l).Sorted (fun a b => key b ≤ key a) := by
  induction l with
  | nil => simp [insertDescBy]
  | cons y ys ih =>
    simp only [insertDescBy]
    rcases List.sorted_cons.mp h with ⟨hy, hys⟩
    by_cases hlt : key y < key x
    · rw [if_pos hlt]
      refine List.sorted_cons.mpr ⟨?_, h⟩
      intro z hz
      rcases List.mem_cons.mp hz with rfl | hz
      · exact le_of_lt hlt
      · exact le_trans (hy z hz) (le_of_lt hlt)
    · simp only [hlt, if_false]
      refine List.sorted_cons.mpr ⟨?_, ih hys⟩
      intro z hz
      rcases (mem_insertDescBy key).mp hz with rfl | hz
      · exact le_of_not_lt hlt
      · exact hy z hz

/-- `sortDescBy` output is sorted weakly descending by `key`. -/
theorem sorted_sortDescBy (l : List α) :
    (sortDescBy key l).Sorted (fun a b => key b ≤ key a) := by
  suffices h : ∀ acc : List α, acc.Sorted (fun a b => key b ≤ key a) →
      (l.foldl (fun acc x => insertDescBy key x acc) acc).Sorted
        (fun a b => key b ≤ key a) by
    exact h [] (by simp)
  induction l with
  | nil => intro acc hacc; simpa using hacc
  | cons x xs ih =>
    intro acc hacc
    exact ih _ (sorted_insertDescBy key x acc hacc)

theorem length_sortDescBy (l : List α) :
    (sortDescBy key l).length = l.length :=
  (sortDescBy_perm key l).length_eq

end StableSort

/-- One step of `*counts.entry(k).or_insert(0) += 1` on the canonical
(first-insertion-order) association-list view of the `HashMap`. -/
def bumpCount (k : String) : List (String × Int) → List (String × Int)
  | [] => [(k, 1)]
  | (a, n) :: t => if a = k then (a, n + 1) :: t else (a, n) :: bumpCount k t

/-- Canonical contents of `author_counts` after the per-story loop
(stories with no author are skipped). -/
def authorCounts (stories : List Story) : List (String × Int) :=
  stories.foldl
    (fun acc s =>
      match s.author with
      | some a => bumpCount a acc
      | none => acc) []

/-- Canonical contents of `domain_counts` after the per-story loop
(stories with no URL, or a URL with no domain, are skipped). -/
def domainCounts (stories : List Story) : List (String × Int) :=
  stories.foldl
    (fun acc s =>
      match s.url with
      | some u =>
        match extract_domain u with
        | some d => bumpCount d acc
        | none => acc
      | none => acc) []

/-- The `StoryInfo` pushed for each story in `process_time_range`. -/
def storyInfoOf (s : Story) : StoryInfo :=
  { title := s.title
    url := s.url
    author := s.author.getD ""
    score := s.score.getD 0
    comments := s.descendants.getD 0
    domain := s.url.bind (fun u => extract_domain u) }

/-- `total_score` accumulator: `score.unwrap_or(0)` summed. -/
def totalScore (stories : List Story) : Int :=
  (stories.map (fun s => s.score.getD 0)).sum

/-- `total_comments` accumulator: `descendants.unwrap_or(0)` summed. -/
def totalComments (stories : List Story) : Int :=
  (stories.map (fun s => s.descendants.getD 0)).sum

/-- Build the `HourlyData` for one bucket, parameterized by the order in
which the two `HashMap`s yield their entries to `into_iter()` (an arbitrary
permutation of the canonical contents in the real program). -/
def mkHourlyWith (hour : Int) (stories : List Story)
    (authorOrder domainOrder : List (String × Int)) : HourlyData :=
  { hour := hour
    stories := stories.map storyInfoOf
    avg_score :=
      if stories.isEmpty then 0
      else (totalScore stories : Rat) / (stories.length : Rat)
    total_comments := totalComments stories
    top_authors := (sortDescBy (fun p => p.2) authorOrder).take 10
    domains := (sortDescBy (fun p => p.2) domainOrder).take 10 }

/-- The bucket aggregation with the canonical iteration orders substituted
(used where the claim at issue does not depend on iteration order). -/
def mkHourly (hour : Int) (stories : List Story) : HourlyData :=
  mkHourlyWith hour stories (authorCounts stories) (domainCounts stories)

/-- `hour_groups.entry(hour_start).or_default().push(story)` on the
canonical association-list view, preserving per-bucket story order. -/
def addToGroup (h : Int) (s : Story) :
    List (Int × List Story) → List (Int × List Story)
  | [] => [(h, [s])]
  | (k, g) :: t => if k = h then (k, g ++ [s]) :: t else (k, g) :: addToGroup h s t

/-- Grouping of stories by the hour-floor of their creation time. -/
def hourGroups (stories : List Story) : List (Int × List Story) :=
  stories.foldl (fun acc s => addToGroup (hourFloor s.time) s acc) []

/-- Contents of the `HashSet<u32>` built by
`story_ids.extend(new_stories); story_ids.extend(top_stories)`, canonically
in first-occurrence order (only membership is determined in the program;
the iteration order handed to the chunked fetch is arbitrary). -/
def candidateIds (newStories topStories : List Nat) : List Nat :=
  (newStories ++ topStories).dedup

/-- `fetch_stories_for_timespan`: the two listing calls may fail (cycle
error); id-fetch failures drop the item (`item id = none`); surviving
stories are filtered to `start_time <= t < end_time`. -/
def fetch_stories_for_timespan (startT endT : Int)
    (newIds topIds : Except String (List Nat))
    (item : Nat → Option Story) : Except String (List Story) :=
  match newIds, topIds with
  | .error e, _ => .error e
  | _, .error e => .error e
  | .ok ns, .ok ts =>
    .ok (((candidateIds ns ts).filterMap item).filter
      (fun s => decide (startT ≤ s.time) && decide (s.time < endT)))

/-- `process_time_range`: fetch the last hour's stories, group by hour,
aggregate each bucket, sort buckets descending by hour. -/
def process_time_range (end_time : Int)
    (newIds topIds : Except String (List Nat))
    (item : Nat → Option Story) : Except String HourlyResponse :=
  match fetch_stories_for_timespan (end_time - 3600) end_time newIds topIds item with
  | .error e => .error e
  | .ok stories =>
    .ok { hourly_data :=
            sortDescBy (fun h => h.hour)
              ((hourGroups stories).map (fun p => mkHourly p.1 p.2))
          timestamp := end_time }

/-- Result of running code that may `panic!` (Rust `.expect`). -/
inductive PanicOr (α : Type) where
  | ok : α → PanicOr α
  | panicked : String → PanicOr α
deriving Repr, DecidableEq

/-- Where a code path runs. `setup_kafka` runs on the main thread before
serving; handlers and the update loop run in spawned tasks. An unwinding
panic kills the whole process only on the main thread; in a spawned task it
kills that task (failing the one request) and the process keeps serving. -/
inductive TaskContext where
  | mainThread
  | workerTask
deriving Repr, DecidableEq

/-- Whether an outcome in a given context brings the process down. -/
def processTerminates {α : Type} : TaskContext → PanicOr α → Bool
  | .mainThread, .panicked _ => true
  | _, _ => false

/-- `setup_kafka`: `ClientConfig::create().expect("Failed to create Kafka
producer")`, run from `main` on the main thread. -/
def setup_kafka (creation : Except String Unit) : PanicOr Unit :=
  match creation with
  | .ok _ => .ok ()
  | .error _ => .panicked "Failed to create Kafka producer"

/-- One observable event of the consumer's `recv` loop: a 2-second timeout,
a receive error, or a message whose payload parses to `some` window
(`none` models a missing/non-UTF-8/unparseable payload, which is skipped). -/
inductive RecvEvent where
  | timeout
  | recvErr
  | msg : Option HourlyData → RecvEvent
deriving Repr, DecidableEq

/-- The `while all_hourly_data.len() < 168 && timeout_count < 3` receive
loop of `get_all_kafka_messages`: timeouts bump the counter, any received
message resets it, a receive error breaks out, parsed payloads accumulate. -/
def collectMessages : List RecvEvent → List HourlyData → Nat → List HourlyData
  | [], acc, _ => acc
  | e :: rest, acc, tcount =>
    if acc.length < 168 ∧ tcount < 3 then
      match e with
      | .timeout => collectMessages rest acc (tcount + 1)
      | .recvErr => acc
      | .msg none => collectMessages rest acc 0
      | .msg (some d) => collectMessages rest (acc ++ [d]) 0
    else acc

/-- `get_all_kafka_messages`. Consumer creation and topic subscription use
`.expect` (a panic, not an `Err`); the function's `Result` error case is
otherwise never produced — every receive-loop outcome ends in `Ok` of the
collected windows sorted descending by hour. -/
def get_all_kafka_messages (creation subscription : Except String Unit)
    (events : List RecvEvent) : PanicOr (List HourlyData) :=
  match creation with
  | .error _ => .panicked "Failed to create consumer"
  | .ok _ =>
    match subscription with
    | .error _ => .panicked "Failed to subscribe to topic"
    | .ok _ => .ok (sortDescBy (fun h => h.hour) (collectMessages events [] 0))

/-- `get_latest_kafka_message`: the head of the replayed, sorted list. -/
def get_latest_kafka_message (creation subscription : Except String Unit)
    (events : List RecvEvent) : PanicOr (Option HourlyData) :=
  match get_all_kafka_messages creation subscription events with
  | .panicked m => .panicked m
  | .ok msgs => .ok msgs.head?

/-- `get_historical_data` (`GET /api/history`): prefer a non-empty Kafka
replay, else fall back to the in-memory mirror. The handler's `Err` arm
(fall back on replay error) is dead code, because `get_all_kafka_messages`
never returns an error value — its failure modes are panics. -/
def get_historical_data (creation subscription : Except String Unit)
    (events : List RecvEvent) (now : Int) (mem : HistoricalData) :
    PanicOr HistoricalData :=
  match get_all_kafka_messages creation subscription events with
  | .panicked m => .panicked m
  | .ok hourly =>
    if hourly.isEmpty then .ok mem
    else .ok { hours := hourly, last_update := some now }

/-- Observable program state: the in-memory mirror (`AppStateData`) plus the
contents of the durable log's topic. -/
structure SystemState where
  mem : HistoricalData
  kafkaLog : List HourlyData
deriving Repr, DecidableEq

/-- `get_latest_hour` (`GET /api/latest`): `historical_data.hours.last()`,
404 when the vector is empty. Reads only the in-memory state. -/
def get_latest_hour (s : SystemState) : Except Nat HourlyData :=
  match s.mem.hours.getLast? with
  | some w => .ok w
  | none => .error 404

/-- The external inputs consumed by one tick of `run_updates`: the wall
clock, the two listing results, the per-id item fetch, and per-window
publish success. -/
structure CycleInput where
  now : Int
  newIds : Except String (List Nat)
  topIds : Except String (List Nat)
  item : Nat → Option Story
  pubOk : Int → Bool

/-- One tick of `run_updates`: truncate `now` to the hour, run
`process_time_range`; on error only log and skip the cycle; on success
publish each window to Kafka (a failed send is only logged) and then
overwrite `historical_data.hours` with the response's windows. -/
def run_update_cycle (s : SystemState) (c : CycleInput) : SystemState :=
  let current_hour := hourFloor c.now
  match process_time_range current_hour c.newIds c.topIds c.item with
  | .error _ => s
  | .ok resp =>
    { mem := { hours := resp.hourly_data, last_update := some resp.timestamp }
      kafkaLog := s.kafkaLog ++ resp.hourly_data.filter (fun h => c.pubOk h.hour) }

/-- State at startup: `HistoricalData::default()` and an empty topic. -/
def initialState : SystemState :=
  { mem := { hours := [], last_update := none }, kafkaLog := [] }

/-- The `run_updates` loop over a finite script of tick inputs. -/
def run_updates (s : SystemState) (cycles : List CycleInput) : SystemState :=
  cycles.foldl run_update_cycle s

/-- Modelled from the spec: `History.append` as the spec describes it —
upsert keyed by window start (replace any retained window with the same
start), then trim to the 168-window retention cap by evicting the windows
with the chronologically oldest start first. Storage order ascending. -/
def specAppend (hist : List HourlyData) (w : HourlyData) : List HourlyData :=
  let upserted := (hist.filter (fun x => x.hour ≠ w.hour)) ++ [w]
  if 168 < upserted.length then upserted.drop (upserted.length - 168) else upserted

/-- Modelled from the spec: appending a batch of computed windows. -/
def specAppendAll (hist : List HourlyData) (ws : List HourlyData) : List HourlyData :=
  ws.foldl specAppend hist

theorem hourFloor_mod (t : Int) : hourFloor t % 3600 = 0 := by
  unfold hourFloor
  omega

theorem hourFloor_of_range (e t : Int) (he : e % 3600 = 0)
    (h1 : e - 3600 ≤ t) (h2 : t < e) : hourFloor t = e - 3600 := by
  unfold hourFloor
  omega

theorem addToGroup_inv (c : Int) (s : Story) (acc : List (Int × List Story))
    (hlen : acc.length ≤ 1) (hkeys : ∀ p ∈ acc, p.1 = c) :
    (addToGroup c s acc).length ≤ 1 ∧ ∀ p ∈ addToGroup c s acc, p.1 = c := by
  match acc with
  | [] => simp [addToGroup]
  | (k, g) :: t =>
    have hk : k = c := hkeys (k, g) (by simp)
    have ht : t = [] := by
      cases t with
      | nil => rfl
      | cons a b => simp at hlen
    subst hk
    subst ht
    simp [addToGroup]

theorem hourGroups_aux (c : Int) :
    ∀ (l : List Story) (acc : List (Int × List Story)),
      (∀ s ∈ l, hourFloor s.time = c) →
      acc.length ≤ 1 → (∀ p ∈ acc, p.1 = c) →
      (l.foldl (fun acc s => addToGroup (hourFloor s.time) s acc) acc).length ≤ 1 := by
  intro l
  induction l with
  | nil => intro acc _ hlen _; simpa using hlen
  | cons s rest ih =>
    intro acc hall hlen hkeys
    have hs : hourFloor s.time = c := hall s (by simp)
    have hstep := addToGroup_inv c s acc hlen hkeys
    simp only [List.foldl_cons, hs]
    exact ih _ (fun x hx => hall x (by simp [hx])) hstep.1 hstep.2

/-- If every story in the batch falls in the same hour bucket, grouping
produces at most one bucket. -/
theorem hourGroups_length_le_one (c : Int) (l : List Story)
    (h : ∀ s ∈ l, hourFloor s.time = c) : (hourGroups l).length ≤ 1 :=
  hourGroups_aux c l [] h (by simp) (by simp)

/-- The last element of a weakly-descending-by-hour list is a minimum. -/
theorem getLast?_min_of_sorted_desc :
    ∀ (l : List HourlyData), l.Sorted (fun a b => b.hour ≤ a.hour) →
      ∀ w, l.getLast? = some w → w ∈ l ∧ ∀ v ∈ l, w.hour ≤ v.hour := by
  intro l
  induction l with
  | nil => intro _ w h; simp at h
  | cons y ys ih =>
    intro hs w hw
    rcases List.sorted_cons.mp hs with ⟨hy, hys⟩
    cases ys with
    | nil =>
      have hwy : y = w := by simpa using hw
      subst hwy
      exact ⟨by simp, by simp⟩
    | cons z zs =>
      have hw' : (z :: zs).getLast? = some w := by
        simpa [List.getLast?_cons_cons] using hw
      obtain ⟨hmem, hmin⟩ := ih hys w hw'
      refine ⟨List.mem_cons_of_mem _ hmem, ?_⟩
      intro v hv
      rcases List.mem_cons.mp hv with rfl | hv
      · exact hy w hmem
      · exact hmin v hv

/-- Two legal iteration orders of the same map contents yield the same
sequence of sorted keys (here: the same descending count profile). -/
theorem sortDescBy_map_key_eq_of_perm {α : Type} (key : α → Int)
    (l₁ l₂ : List α) (h : l₁.Perm l₂) :
    (sortDescBy key l₁).map key = (sortDescBy key l₂).map key := by
  haveI : IsAntisymm Int (fun a b : Int => b ≤ a) :=
    ⟨fun a b h1 h2 => le_antisymm h2 h1⟩
  apply List.eq_of_perm_of_sorted (r := fun a b : Int => b ≤ a)
  · exact ((sortDescBy_perm key l₁).map key).trans
      ((h.map key).trans ((sortDescBy_perm key l₂).map key).symm)
  · exact List.pairwise_map.mpr (sorted_sortDescBy key l₁)
  · exact List.pairwise_map.mpr (sorted_sortDescBy key l₂)

theorem trimWww_sublist : ∀ l : List Char, (trimWww l).Sublist l := by
  intro l
  induction l using trimWww.induct with
  | case1 rest ih =>
    exact ih.trans (((((List.Sublist.refl rest).cons '.').cons 'w').cons 'w').cons 'w')
  | case2 l h =>
    rw [trimWww.eq_2 l h]

/-- Fixture: an old retained window (start hour 100 UTC = 360000). -/
def exWindowOld : HourlyData :=
  { hour := 360000, stories := [], avg_score := 0, total_comments := 0,
    top_authors := [], domains := [] }

/-- Fixture: a window at epoch hour 1. -/
def exWindowMid : HourlyData :=
  { hour := 3600, stories := [], avg_score := 0, total_comments := 0,
    top_authors := [], domains := [] }

/-- Fixture: a window at epoch hour 2. -/
def exWindowNew : HourlyData :=
  { hour := 7200, stories := [], avg_score := 0, total_comments := 0,
    top_authors := [], domains := [] }

/-- Fixture: a story inside hour bucket 716400 (= hour 199). -/
def exStory : Story :=
  { id := 1, title := "hello", score := some 10, time := 716410, kids := [],
    url := some "https://www.example.com/a/b", type := some "story",
    author := some "alice", text := none, descendants := some 3 }

/-- Fixture: a story by author bob, no URL. -/
def exStoryBob : Story :=
  { id := 2, title := "b", score := some 1, time := 0, kids := [], url := none,
    type := none, author := some "bob", text := none, descendants := none }

/-- Fixture: a story by author alice, no URL. -/
def exStoryAlice : Story :=
  { id := 3, title := "a", score := some 1, time := 0, kids := [], url := none,
    type := none, author := some "alice", text := none, descendants := none }

/-- C5 counterexample: domain extraction is NOT case-insensitive and does
NOT discard a query string — `https://WWW.example.com/a/b` keeps its
upper-case host with `www.` unstripped, so two URLs differing only in host
case yield different domains, and `?q=1` survives when no `/` precedes it. -/
theorem extract_domain_case_counterexample :
    extract_domain "https://WWW.example.com/a/b" = some "WWW.example.com" ∧
    extract_domain "https://www.example.com/a/b" = some "example.com" ∧
    extract_domain "https://WWW.example.com/a/b" ≠
      extract_domain "https://www.example.com/a/b" ∧
    extract_domain "https://example.com?q=1" = some "example.com?q=1" := by
  decide

/-- C5 amended: domain extraction takes the substring after the first `//`
up to the first `/` (so a query not preceded by a slash is kept), strips
leading literal `www.` prefixes case-sensitively, preserves host case, and
yields no domain when `//` is absent; the three cited examples hold, and an
extracted domain never contains a `/`. -/
theorem extract_domain_amended :
    extract_domain "https://www.example.com/a/b" = some "example.com" ∧
    extract_domain "http://sub.example.com" = some "sub.example.com" ∧
    extract_domain "example.com" = none ∧
    extract_domain "https://www.www.example.com/x" = some "example.com" ∧
    ∀ u d, extract_domain u = some d → '/' ∉ d.data := by
  refine ⟨by decide, by decide, by decide, by decide, ?_⟩
  intro u d h hc
  unfold extract_domain at h
  cases hu : afterDoubleSlash u.data with
  | none => rw [hu] at h; simp at h
  | some rest =>
    rw [hu] at h
    simp only [Option.map_some', Option.some.injEq] at h
    have hdata : d.data = trimWww (takeUntilSlash rest) := by
      rw [← h]
    rw [hdata] at hc
    have hc2 : '/' ∈ takeUntilSlash rest := (trimWww_sublist _).subset hc
    have := List.mem_takeWhile_imp hc2
    simp at this

/-- Witness for `extract_domain_amended` at a concrete URL. -/
theorem extract_domain_amended_witness : '/' ∉ ("example.com" : String).data :=
  extract_domain_amended.2.2.2.2 "https://www.example.com/a/b" "example.com"
    (by decide)

/-- C6: whatever windows the replay loop collected, in whatever arrival
order, `get_all_kafka_messages` returns exactly that multiset sorted
weakly descending by window start hour. -/
theorem get_all_kafka_messages_sorted (events : List RecvEvent)
    (l : List HourlyData)
    (h : get_all_kafka_messages (.ok ()) (.ok ()) events = .ok l) :
    l.Sorted (fun a b => b.hour ≤ a.hour) ∧
    l.Perm (collectMessages events [] 0) := by
  have hl := PanicOr.ok.inj h
  rw [← hl]
  exact ⟨sorted_sortDescBy _ _, sortDescBy_perm _ _⟩

/-- Fixture: a replay event stream with out-of-order arrivals, a timeout,
an unparseable payload and a receive error. -/
def exEvents : List RecvEvent :=
  [.msg (some exWindowMid), .timeout, .msg none, .msg (some exWindowNew), .recvErr,
   .msg (some exWindowOld)]

/-- Witness for `get_all_kafka_messages_sorted` on a concrete stream. -/
theorem get_all_kafka_messages_sorted_witness :
    ([exWindowNew, exWindowMid] : List HourlyData).Sorted
      (fun a b => b.hour ≤ a.hour) ∧
    ([exWindowNew, exWindowMid] : List HourlyData).Perm
      (collectMessages exEvents [] 0) :=
  get_all_kafka_messages_sorted exEvents [exWindowNew, exWindowMid] (by decide)

/-- C8: the average score equals the sum of the per-story scores (absent
scores defaulting to 0) divided by the story count — exactly 0 for an empty
bucket, with the `is_empty` guard making the division-by-zero case
unreachable (in `Rat` the two readings agree since `x / 0 = 0`). -/
theorem avg_score_total_div_count :
    ∀ (hour : Int) (stories : List Story) (aOrd dOrd : List (String × Int)),
      (mkHourlyWith hour stories aOrd dOrd).avg_score =
        ((((stories.map (fun s => s.score.getD 0)).sum : Int) : Rat) /
          (stories.length : Rat)) ∧
      (mkHourlyWith hour [] aOrd dOrd).avg_score = 0 := by
  intro hour stories aOrd dOrd
  constructor
  · cases stories with
    | nil => simp [mkHourlyWith]
    | cons s rest => rfl
  · rfl

/-- Number of ingestion cycles of a script whose candidate-id set admits
identifier `i` (in the code a fresh `HashSet` is built every cycle). -/
def timesAdmitted (script : List (List Nat × List Nat)) (i : Nat) : Nat :=
  (script.filter (fun c => decide (i ∈ candidateIds c.1 c.2))).length

/-- C9 counterexample: no seen-set survives between cycles and no prune
operation exists, so an identifier listed in two consecutive cycles is
admitted (fetched) in both — not "true exactly once until a prune". -/
theorem dedup_readmits_across_cycles :
    timesAdmitted [([42], []), ([42], [])] 42 = 2 ∧
    ¬ timesAdmitted [([42], []), ([42], [])] 42 ≤ 1 := by
  decide

/-- C9 amended: deduplication exists only within one fetch cycle — the
`HashSet` union of the two listings admits each identifier at most once per
cycle (membership is exactly "listed by either ranking"), and nothing is
remembered across cycles. -/
theorem candidateIds_nodup_mem :
    ∀ (ns ts : List Nat), (candidateIds ns ts).Nodup ∧
      ∀ i, i ∈ candidateIds ns ts ↔ i ∈ ns ∨ i ∈ ts := by
  intro ns ts
  refine ⟨List.nodup_dedup _, fun i => ?_⟩
  simp [candidateIds]

/-- C10: `get_latest_hour` reads only the in-memory history — two states
with equal memory but different durable-log contents answer identically,
and an empty memory yields 404 even when the log holds a window. -/
theorem get_latest_hour_ignores_kafka :
    (∀ (mem : HistoricalData) (log₁ log₂ : List HourlyData),
      get_latest_hour ⟨mem, log₁⟩ = get_latest_hour ⟨mem, log₂⟩) ∧
    get_latest_hour ⟨{ hours := [], last_update := none }, [exWindowOld]⟩ =
      .error 404 :=
  ⟨fun _ _ _ => rfl, rfl⟩

/-- C2 counterexample: two legal `HashMap` iteration orders for the same
input story sequence (`[exStoryBob, exStoryAlice]`, a one-one author-count
tie) yield different `HourlyData` values: the canonical order ranks bob
before alice, the permuted order ranks alice before bob (and the claimed
first-occurrence tie-break would demand bob, the earlier author, first). -/
theorem aggregate_not_deterministic :
    ([("alice", 1), ("bob", 1)] : List (String × Int)).Perm
      (authorCounts [exStoryBob, exStoryAlice]) ∧
    mkHourlyWith 0 [exStoryBob, exStoryAlice]
        (authorCounts [exStoryBob, exStoryAlice])
        (domainCounts [exStoryBob, exStoryAlice]) ≠
      mkHourlyWith 0 [exStoryBob, exStoryAlice]
        [("alice", 1), ("bob", 1)]
        (domainCounts [exStoryBob, exStoryAlice]) := by
  refine ⟨by decide, fun h => ?_⟩
  have h2 := congrArg HourlyData.top_authors h
  exact absurd h2 (by decide)

/-- C2 amended: fixing the hash-map iteration orders makes the aggregation
a function: the story summaries, average score, comment total (and hour)
depend only on the input sequence; the rankings are always sorted weakly
descending by count and their count profiles depend only on the input —
but the order among tied entries follows the iteration order, not first
occurrence in the input. -/
theorem aggregate_deterministic_given_order (hour : Int) (stories : List Story)
    (a₁ a₂ d₁ d₂ : List (String × Int))
    (ha₁ : a₁.Perm (authorCounts stories)) (ha₂ : a₂.Perm (authorCounts stories))
    (hd₁ : d₁.Perm (domainCounts stories)) (hd₂ : d₂.Perm (domainCounts stories)) :
    (mkHourlyWith hour stories a₁ d₁).stories =
      (mkHourlyWith hour stories a₂ d₂).stories ∧
    (mkHourlyWith hour stories a₁ d₁).avg_score =
      (mkHourlyWith hour stories a₂ d₂).avg_score ∧
    (mkHourlyWith hour stories a₁ d₁).total_comments =
      (mkHourlyWith hour stories a₂ d₂).total_comments ∧
    (mkHourlyWith hour stories a₁ d₁).top_authors.Sorted (fun p q => q.2 ≤ p.2) ∧
    (mkHourlyWith hour stories a₁ d₁).domains.Sorted (fun p q => q.2 ≤ p.2) ∧
    (mkHourlyWith hour stories a₁ d₁).top_authors.map (fun p => p.2) =
      (mkHourlyWith hour stories a₂ d₂).top_authors.map (fun p => p.2) ∧
    (mkHourlyWith hour stories a₁ d₁).domains.map (fun p => p.2) =
      (mkHourlyWith hour stories a₂ d₂).domains.map (fun p => p.2) := by
  refine ⟨rfl, rfl, rfl, ?_, ?_, ?_, ?_⟩
  · have hs := sorted_sortDescBy (fun p : String × Int => p.2) a₁
    exact hs.sublist (List.take_sublist _ _)
  · have hs := sorted_sortDescBy (fun p : String × Int => p.2) d₁
    exact hs.sublist (List.take_sublist _ _)
  · show ((sortDescBy (fun p => p.2) a₁).take 10).map (fun p => p.2) =
      ((sortDescBy (fun p => p.2) a₂).take 10).map (fun p => p.2)
    rw [List.map_take, List.map_take,
      sortDescBy_map_key_eq_of_perm (fun p => p.2) a₁ a₂ (ha₁.trans ha₂.symm)]
  · show ((sortDescBy (fun p => p.2) d₁).take 10).map (fun p => p.2) =
      ((sortDescBy (fun p => p.2) d₂).take 10).map (fun p => p.2)
    rw [List.map_take, List.map_take,
      sortDescBy_map_key_eq_of_perm (fun p => p.2) d₁ d₂ (hd₁.trans hd₂.symm)]

/-- Witness for `aggregate_deterministic_given_order` on the concrete tied
input with the canonical and one permuted iteration order. -/
theorem aggregate_deterministic_given_order_witness :
    (mkHourlyWith 0 [exStoryBob, exStoryAlice]
        (authorCounts [exStoryBob, exStoryAlice]) []).stories =
      (mkHourlyWith 0 [exStoryBob, exStoryAlice]
        [("alice", 1), ("bob", 1)] []).stories ∧
    (mkHourlyWith 0 [exStoryBob, exStoryAlice]
        (authorCounts [exStoryBob, exStoryAlice]) []).avg_score =
      (mkHourlyWith 0 [exStoryBob, exStoryAlice]
        [("alice", 1), ("bob", 1)] []).avg_score ∧
    (mkHourlyWith 0 [exStoryBob, exStoryAlice]
        (authorCounts [exStoryBob, exStoryAlice]) []).total_comments =
      (mkHourlyWith 0 [exStoryBob, exStoryAlice]
        [("alice", 1), ("bob", 1)] []).total_comments ∧
    (mkHourlyWith 0 [exStoryBob, exStoryAlice]
        (authorCounts [exStoryBob, exStoryAlice]) []).top_authors.Sorted
          (fun p q => q.2 ≤ p.2) ∧
    (mkHourlyWith 0 [exStoryBob, exStoryAlice]
        (authorCounts [exStoryBob, exStoryAlice]) []).domains.Sorted
          (fun p q => q.2 ≤ p.2) ∧
    (mkHourlyWith 0 [exStoryBob, exStoryAlice]
        (authorCounts [exStoryBob, exStoryAlice]) []).top_authors.map
          (fun p => p.2) =
      (mkHourlyWith 0 [exStoryBob, exStoryAlice]
        [("alice", 1), ("bob", 1)] []).top_authors.map (fun p => p.2) ∧
    (mkHourlyWith 0 [exStoryBob, exStoryAlice]
        (authorCounts [exStoryBob, exStoryAlice]) []).domains.map
          (fun p => p.2) =
      (mkHourlyWith 0 [exStoryBob, exStoryAlice]
        [("alice", 1), ("bob", 1)] []).domains.map (fun p => p.2) :=
  aggregate_deterministic_given_order 0 [exStoryBob, exStoryAlice]
    (authorCounts [exStoryBob, exStoryAlice]) [("alice", 1), ("bob", 1)] [] []
    (List.Perm.refl _) (by decide) (by decide) (by decide)

/-- Fixture: a state holding two windows, stored descending by hour as
`run_updates` stores them. -/
def exStateTwo : SystemState :=
  { mem := { hours := [exWindowNew, exWindowMid], last_update := some 0 },
    kafkaLog := [] }

/-- C3 counterexample: on a two-window descending-stored history,
`get_latest_hour` returns `hours.last()` — the chronologically oldest
retained window, not the one with the greatest start timestamp. -/
theorem get_latest_hour_counterexample :
    get_latest_hour exStateTwo = .ok exWindowMid ∧
    exWindowNew ∈ exStateTwo.mem.hours ∧
    exWindowMid.hour < exWindowNew.hour := by
  refine ⟨rfl, ?_, by decide⟩
  show exWindowNew ∈ [exWindowNew, exWindowMid]
  exact List.mem_cons_self _ _

/-- C3 amended: 404 exactly when the history is empty; otherwise the LAST
stored window is returned, which on a descending-by-hour store (the order
`run_updates` writes) is the minimum-start retained window — coinciding
with the most recent one exactly in the reachable at-most-one-window
states. -/
theorem get_latest_hour_amended (s : SystemState) :
    (get_latest_hour s = .error 404 ↔ s.mem.hours = []) ∧
    (∀ w, s.mem.hours.getLast? = some w → get_latest_hour s = .ok w) ∧
    (s.mem.hours.Sorted (fun a b => b.hour ≤ a.hour) →
      ∀ w, get_latest_hour s = .ok w → w ∈ s.mem.hours ∧
        ∀ v ∈ s.mem.hours, w.hour ≤ v.hour) ∧
    (∀ w, s.mem.hours = [w] → get_latest_hour s = .ok w) := by
  have hbase : ∀ w, s.mem.hours.getLast? = some w → get_latest_hour s = .ok w := by
    intro w hw
    unfold get_latest_hour
    rw [hw]
  refine ⟨⟨?_, ?_⟩, hbase, ?_, ?_⟩
  · intro h
    unfold get_latest_hour at h
    cases hl : s.mem.hours.getLast? with
    | none => exact List.getLast?_eq_none_iff.mp hl
    | some w => rw [hl] at h; exact absurd h (by simp)
  · intro h
    unfold get_latest_hour
    rw [h]
    rfl
  · intro hsort w hw
    have hlast : s.mem.hours.getLast? = some w := by
      unfold get_latest_hour at hw
      cases hl : s.mem.hours.getLast? with
      | none => rw [hl] at hw; exact absurd hw (by simp)
      | some v =>
        rw [hl] at hw
        simpa using hw
    exact getLast?_min_of_sorted_desc _ hsort w hlast
  · intro w hw
    apply hbase
    rw [hw]
    rfl

/-- Witness for `get_latest_hour_amended` at the concrete two-window state. -/
theorem get_latest_hour_amended_witness :
    get_latest_hour exStateTwo = .ok exWindowMid ∧
    (exWindowMid ∈ exStateTwo.mem.hours ∧
      ∀ v ∈ exStateTwo.mem.hours, exWindowMid.hour ≤ v.hour) :=
  ⟨(get_latest_hour_amended exStateTwo).2.1 exWindowMid (by decide),
    ((get_latest_hour_amended exStateTwo).2.2.1 (by decide) exWindowMid
      ((get_latest_hour_amended exStateTwo).2.1 exWindowMid (by decide)))⟩

/-- Shape of a successful cycle: the new in-memory history is exactly the
hour-grouped aggregation of the fetched, range-filtered stories. -/
theorem run_update_cycle_ok_hours (s : SystemState) (now : Int) (ns ts : List Nat)
    (item : Nat → Option Story) (pub : Int → Bool) :
    (run_update_cycle s ⟨now, .ok ns, .ok ts, item, pub⟩).mem.hours =
      sortDescBy (fun h => h.hour)
        ((hourGroups (((candidateIds ns ts).filterMap item).filter
          (fun st => decide (hourFloor now - 3600 ≤ st.time) &&
            decide (st.time < hourFloor now)))).map
          (fun p => mkHourly p.1 p.2)) := rfl

/-- A successful cycle always produces at most one window: its fetch range
is one hour-aligned hour, so every surviving story lands in one bucket. -/
theorem run_update_cycle_ok_length (s : SystemState) (now : Int) (ns ts : List Nat)
    (item : Nat → Option Story) (pub : Int → Bool) :
    (run_update_cycle s ⟨now, .ok ns, .ok ts, item, pub⟩).mem.hours.length ≤ 1 := by
  rw [run_update_cycle_ok_hours, length_sortDescBy, List.length_map]
  apply hourGroups_length_le_one (hourFloor now - 3600)
  intro st hst
  obtain ⟨-, hpred⟩ := List.mem_filter.mp hst
  simp only [Bool.and_eq_true, decide_eq_true_eq] at hpred
  exact hourFloor_of_range (hourFloor now) st.time (hourFloor_mod now)
    hpred.1 hpred.2

/-- A cycle whose "newstories" listing fails is skipped entirely. -/
theorem run_update_cycle_newIds_error (s : SystemState) (now : Int) (e : String)
    (ti : Except String (List Nat)) (item : Nat → Option Story)
    (pub : Int → Bool) :
    run_update_cycle s ⟨now, .error e, ti, item, pub⟩ = s := by
  cases ti <;> rfl

/-- A cycle whose "topstories" listing fails is skipped entirely. -/
theorem run_update_cycle_topIds_error (s : SystemState) (now : Int)
    (ns : List Nat) (e : String) (item : Nat → Option Story)
    (pub : Int → Bool) :
    run_update_cycle s ⟨now, .ok ns, .error e, item, pub⟩ = s := rfl

theorem run_update_cycle_length_le_one (s : SystemState) (c : CycleInput)
    (hs : s.mem.hours.length ≤ 1) :
    (run_update_cycle s c).mem.hours.length ≤ 1 := by
  obtain ⟨now, ni, ti, item, pub⟩ := c
  cases ni with
  | error e => rw [run_update_cycle_newIds_error]; exact hs
  | ok ns =>
    cases ti with
    | error e => rw [run_update_cycle_topIds_error]; exact hs
    | ok ts => exact run_update_cycle_ok_length s now ns ts item pub

theorem run_updates_length_aux :
    ∀ (cycles : List CycleInput) (s : SystemState),
      s.mem.hours.length ≤ 1 →
      (run_updates s cycles).mem.hours.length ≤ 1 := by
  intro cycles
  induction cycles with
  | nil => intro s hs; exact hs
  | cons c rest ih =>
    intro s hs
    show (run_updates (run_update_cycle s c) rest).mem.hours.length ≤ 1
    exact ih _ (run_update_cycle_length_le_one s c hs)

/-- Fixture: a state retaining one old window (hour 100). -/
def exSysOld : SystemState :=
  { mem := { hours := [exWindowOld], last_update := some 0 }, kafkaLog := [] }

/-- Fixture: a cycle at wall clock 720030 whose fetch yields `exStory`
(bucket hour 199 = 716400), with all publishes succeeding. -/
def exCycle : CycleInput :=
  { now := 720030, newIds := .ok [1], topIds := .ok [],
    item := fun i => if i = 1 then some exStory else none,
    pubOk := fun _ => true }

/-- C1 counterexample: the update is a wholesale replacement, not the
spec's upsert-then-evict append. The retained window at hour 360000 shares
no start with the cycle's sole new window (hour 716400) and the combined
length 2 is far below the 168 cap, yet the code's new history drops it,
differing from `specAppendAll` (which keeps both). -/
theorem history_not_upserted_counterexample :
    ((run_update_cycle exSysOld exCycle).mem.hours.map (fun w => w.hour)) =
      [716400] ∧
    ((specAppendAll exSysOld.mem.hours
        (run_update_cycle exSysOld exCycle).mem.hours).map (fun w => w.hour)) =
      [360000, 716400] ∧
    exSysOld.mem.hours.length +
      (run_update_cycle exSysOld exCycle).mem.hours.length ≤ 168 ∧
    (run_update_cycle exSysOld exCycle).mem.hours ≠
      specAppendAll exSysOld.mem.hours
        (run_update_cycle exSysOld exCycle).mem.hours := by
  refine ⟨by decide, by decide, by decide, fun h => ?_⟩
  exact absurd (congrArg (List.map (fun w => w.hour)) h) (by decide)

/-- C1 amended: each successful ingestion cycle wholesale-replaces the
history with that cycle's computed windows — at most one window per cycle
(the fetch range is a single aligned hour), so from startup the history
length never exceeds 1, hence never the 168 cap; the new history is
independent of the previous one (no upsert, no oldest-first eviction), and
a failed cycle leaves the state untouched. -/
theorem history_replaced_wholesale :
    (∀ cycles : List CycleInput,
      (run_updates initialState cycles).mem.hours.length ≤ 168) ∧
    (∀ (s : SystemState) (now : Int) (ns ts : List Nat)
       (item : Nat → Option Story) (pub : Int → Bool),
      (run_update_cycle s ⟨now, .ok ns, .ok ts, item, pub⟩).mem.hours.length ≤ 1) ∧
    (∀ (s₁ s₂ : SystemState) (now : Int) (ns ts : List Nat)
       (item : Nat → Option Story) (pub : Int → Bool),
      (run_update_cycle s₁ ⟨now, .ok ns, .ok ts, item, pub⟩).mem =
        (run_update_cycle s₂ ⟨now, .ok ns, .ok ts, item, pub⟩).mem) ∧
    (∀ (s : SystemState) (now : Int) (e : String)
       (ti : Except String (List Nat)) (item : Nat → Option Story)
       (pub : Int → Bool),
      run_update_cycle s ⟨now, .error e, ti, item, pub⟩ = s) := by
  refine ⟨?_, run_update_cycle_ok_length, fun _ _ _ _ _ _ _ => rfl,
    run_update_cycle_newIds_error⟩
  intro cycles
  exact le_trans (run_updates_length_aux cycles initialState (by simp [initialState]))
    (by omega)

/-- C4 counterexample: a Kafka producer-creation failure at startup —
`setup_kafka` runs on the main thread inside `main` — panics via `.expect`
and therefore terminates the process. -/
theorem setup_kafka_terminates_process :
    setup_kafka (.error "kafka unreachable") =
      .panicked "Failed to create Kafka producer" ∧
    processTerminates .mainThread (setup_kafka (.error "kafka unreachable")) =
      true :=
  ⟨rfl, rfl⟩

/-- C4 amended: feed-listing failures skip the cycle, publish failures
never affect the in-memory result, and every receive-loop outcome of the
replay ends in `Ok` (consume errors are absorbed); a consumer-creation
failure during a history read panics only the handler task (the process
survives) — the process-terminating case is producer creation at startup. -/
theorem core_failures_absorbed_except_client_setup :
    (∀ (s : SystemState) (now : Int) (e : String)
       (ti : Except String (List Nat)) (item : Nat → Option Story)
       (pub : Int → Bool),
      run_update_cycle s ⟨now, .error e, ti, item, pub⟩ = s) ∧
    (∀ (s : SystemState) (now : Int) (ni ti : Except String (List Nat))
       (item : Nat → Option Story) (p₁ p₂ : Int → Bool),
      (run_update_cycle s ⟨now, ni, ti, item, p₁⟩).mem =
        (run_update_cycle s ⟨now, ni, ti, item, p₂⟩).mem) ∧
    (∀ events : List RecvEvent,
      ∃ l, get_all_kafka_messages (.ok ()) (.ok ()) events = .ok l) ∧
    (∀ e : String, processTerminates .workerTask
      (get_all_kafka_messages (.error e) (.ok ()) []) = false) := by
  refine ⟨?_, ?_, fun events => ⟨_, rfl⟩, fun e => rfl⟩
  · intro s now e ti item pub
    cases ti <;> rfl
  · intro s now ni ti item p₁ p₂
    cases ni with
    | error e => cases ti <;> rfl
    | ok ns =>
      cases ti with
      | error e => rfl
      | ok ts => rfl

/-- Fixture: an in-memory history holding the most recent locally-known
window, used as the fallback source. -/
def exMemFallback : HistoricalData :=
  { hours := [exWindowNew], last_update := some 1 }

/-- C7: a replay that yields zero windows (all timeouts, or an immediate
receive error) falls back to the in-memory history — but a consumer
creation failure, the one way replay "fails outright", panics the request
via `.expect` instead of taking the documented in-memory fallback. -/
theorem history_read_panics_instead_of_fallback :
    get_historical_data (.error "broker down") (.ok ()) [] 99 exMemFallback =
      .panicked "Failed to create consumer" ∧
    get_historical_data (.error "broker down") (.ok ()) [] 99 exMemFallback ≠
      .ok exMemFallback ∧
    get_historical_data (.ok ()) (.ok ()) [.timeout, .timeout, .timeout] 99
      exMemFallback = .ok exMemFallback ∧
    get_historical_data (.ok ()) (.ok ()) [.recvErr] 99 exMemFallback =
      .ok exMemFallback := by
  refine ⟨rfl, ?_, rfl, rfl⟩
  intro h
  exact PanicOr.noConfusion h
